import Mathlib

/-!
Verification development for the multi-Gaussian naive Bayes classifier
(`naivebayes.py`).  The Python floats are modelled as exact real numbers;
a float value that may be non-finite (nan or an infinity) is modelled as
`Option ℝ`, with `none` standing for a non-finite value.  The two pieces of
external library code (pypmc's variational `GaussianInference` refinement and
its `ImportanceSampler`-based Monte-Carlo KL estimate) are injected as
function parameters `vb` and `klE`: they are third-party, stochastic code,
and every theorem below holds for an arbitrary choice of them.
Printing, plotting (`plothist`, `plot_prefix`, `column_names`, `verbose`) and
the joblib parallel dispatch are pure side channels with no influence on the
computed values and are not modelled.  The sklearn shape-validation helpers
(`check_X_y`, `check_array`) pass rectangular inputs through unchanged and are
not modelled; `check_is_fitted` is modelled by the `Option`-valued fitted
state, so prediction on an unfitted instance is the `none` outcome.
-/

noncomputable section

/-- A possibly non-finite float value: `none` models nan or an infinity. -/
abbrev FVal := Option ℝ

/-- One Gaussian component as stored by pypmc: `mu` is the mean and `sigma`
is the single entry of the 1x1 covariance matrix (so `sigma` is the value the
evaluation code uses as the variance). -/
structure GaussComponent where
  mu : ℝ
  sigma : ℝ

/-- A pypmc Gaussian mixture: a list of components plus their weights. -/
structure Mixture where
  components : List GaussComponent
  weights : List ℝ

/-- pypmc `create_gaussian_mixture(means, covs)` with default weights:
one component per mean/covariance pair, all weights equal `1/K`. -/
def createGaussianMixture (means covs : List ℝ) : Mixture :=
  { components := List.zipWith (fun m c => { mu := m, sigma := c }) means covs,
    weights := means.map (fun _ => 1 / (means.length : ℝ)) }

/-- The fixed `self.minprob = 1e-5` set in `__init__`. -/
def minprobVal : ℝ := 1 / 100000

/-- The finite entries of a column, `col[numpy.isfinite(col)]`. -/
def finiteVals (col : List FVal) : List ℝ := col.filterMap id

/-- `numpy.mean` of a sample. -/
def sampleMean (l : List ℝ) : ℝ := l.sum / (l.length : ℝ)

/-- `numpy.std` of a sample (population standard deviation, ddof = 0). -/
def sampleStd (l : List ℝ) : ℝ :=
  Real.sqrt ((l.map (fun v => (v - sampleMean l) ^ 2)).sum / (l.length : ℝ))

/-- Modelled from the spec: the "sample variance" the spec says the
single-Gaussian fast path stores (population variance, the square of
`sampleStd`).  Used only to compare the spec's words against the code. -/
def sampleVariance (l : List ℝ) : ℝ :=
  (l.map (fun v => (v - sampleMean l) ^ 2)).sum / (l.length : ℝ)

/-- The linear-interpolation step of `numpy.percentile` on an already sorted
array, at fractional index `h`: with `i = floor h` and `g = h - floor h` the
result is `a[i] + g * (a[i+1] - a[i])`. -/
def interpAt {α : Type} [LinearOrderedField α] [FloorRing α] (a : List α) (h : α) : α :=
  a.getD (Int.floor h).toNat 0 +
    (h - ((Int.floor h : ℤ) : α)) *
      (a.getD ((Int.floor h).toNat + 1) 0 - a.getD (Int.floor h).toNat 0)

/-- `numpy.percentile` of a sorted array at level `q` (0 to 100), linear
interpolation: the fractional index is `q/100 * (n-1)`. -/
def percentileLevel {α : Type} [LinearOrderedField α] [FloorRing α] (a : List α) (q : α) : α :=
  interpAt a (q / 100 * ((a.length : α) - 1))

/-- `numpy.percentile(x, q)`: sorts the sample and interpolates. -/
def percentile {α : Type} [LinearOrderedField α] [FloorRing α] (x : List α) (q : α) : α :=
  percentileLevel (List.insertionSort (· ≤ ·) x) q

/-- `_make_single_mixture(x, Ngauss_init)` (the quantile partitioner),
lines 26-38: percentile boundaries at levels `[0] + [i*100/K, i=1..K-1] + [100]`,
means are midpoints of consecutive boundaries, covariances are the squared
boundary gaps floored at `((max-min)/100)^2`.  (The evenly spaced layout after
the `return` statement is unreachable dead code and is not modelled.) -/
def makeSingleMixture {α : Type} [LinearOrderedField α] [FloorRing α]
    (x : List α) (Ngauss_init : ℕ) : List α × List α :=
  let q : List α := (List.range' 1 (Ngauss_init - 1)).map
    (fun i : ℕ => (i : α) * 100 / (Ngauss_init : α))
  let percentiles : List α := (([0] ++ q) ++ [100]).map (percentile x)
  let mincov : α := ((percentiles.getLastD 0 - percentiles.headD 0) / 100) ^ 2
  let pairs := percentiles.zip (percentiles.drop 1)
  (pairs.map (fun p => (p.2 + p.1) / 2),
   pairs.map (fun p => if (p.2 - p.1) ^ 2 > mincov then (p.2 - p.1) ^ 2 else mincov))

/-- The percentile boundary of the spec's words for claim C7: level
`i * 100 / K` of the sample.  Stated from the spec, to be compared with the
boundaries `makeSingleMixture` computes. -/
def specBoundary {α : Type} [LinearOrderedField α] [FloorRing α]
    (x : List α) (K i : ℕ) : α :=
  percentile x ((i : α) * 100 / (K : α))

/-- `_make_mixture_for_column` (lines 46-66).  `vb` abstracts the external
pypmc `GaussianInference(...).run(...)`/`make_mixture()` refinement applied to
the data and the initial quantile mixture. -/
def makeMixtureForColumn (vb : List ℝ → Mixture → Mixture)
    (Ngauss_init nmin_multigauss VB_iter : ℕ) (col0 : List FVal) : Option Mixture :=
  let col := finiteVals col0
  let std := sampleStd col
  if col.length = 0 ∨ ¬ std > 0 then
    none
  else if col.length < nmin_multigauss ∨ VB_iter = 0 then
    some (createGaussianMixture [sampleMean col] [std])
  else
    let mc := makeSingleMixture col Ngauss_init
    some (vb col (createGaussianMixture mc.1 mc.2))

/-- `scipy.misc.logsumexp` over a list: `log (sum (exp x))`. -/
def logsumexp (l : List ℝ) : ℝ := Real.log ((l.map Real.exp).sum)

/-- The per-column mixture log-density of `_evaluate_feature_dist`
(lines 166-175): the log-sum-exp over components of
`-0.5*log(sigma*2*pi) - 0.5*(x-mu)^2/sigma + log w`.  A non-finite input
propagates through the float arithmetic, so the result is `none` exactly when
the observation is non-finite. -/
def mixLogpdf (mix : Mixture) (x : FVal) : Option ℝ :=
  match x with
  | none => none
  | some v => some (logsumexp (List.zipWith
      (fun (g : GaussComponent) (w : ℝ) =>
        -(0.5 : ℝ) * Real.log (g.sigma * 2 * Real.pi)
          - (0.5 : ℝ) * ((v - g.mu) ^ 2 / g.sigma) + Real.log w)
      mix.components mix.weights))

/-- One `(feature, observation)` entry of the `logprob` matrix of
`_evaluate_feature_dist` after its two clean-up passes (lines 161-183):
an absent mixture leaves the zero entry untouched; a non-finite log-density is
replaced by zero; anything below `log minprob` is clamped up to it. -/
def featureContribution (m : Option Mixture) (x : FVal) : ℝ :=
  let raw : Option ℝ :=
    match m with
    | none => some 0
    | some mix => mixLogpdf mix x
  let v : ℝ := match raw with | none => 0 | some w => w
  if v < Real.log minprobVal then Real.log minprobVal else v

/-- One row of `_evaluate_feature_dist` (lines 159-187): the per-feature
contributions summed across columns, plus the class log-prior. -/
def evalFeatureDistRow (fds : List (Option Mixture)) (row : List FVal)
    (logprior : ℝ) : ℝ :=
  (List.zipWith featureContribution fds row).sum + logprior

/-- The KL vector of `_evaluate_information_single` (lines 189-214, plotting
elided): pairs of per-feature mixtures are walked in order; a pair with an
absent member is skipped (`continue`), otherwise the Monte-Carlo KL estimate
(`klE`, abstracting the external `ImportanceSampler` run and
`-log(weights+1e-300).mean()`) is appended. -/
def evalInfoSingle (klE : Mixture → Mixture → ℝ)
    (features1 features2 : List (Option Mixture)) : List ℝ :=
  (features1.zip features2).filterMap (fun p =>
    match p.1, p.2 with
    | some mix1, some mix2 => some (klE mix1 mix2)
    | _, _ => none)

/-- `sklearn.utils.multiclass.unique_labels(y)`: the sorted set of labels. -/
def uniqueLabels (y : List ℤ) : List ℤ := List.insertionSort (· ≤ ·) y.dedup

/-- Elementwise `x <= 0` with numpy nan semantics: a comparison against a
non-finite value is false. -/
def leZeroF (x : FVal) : Bool :=
  match x with
  | none => false
  | some v => decide (v ≤ 0)

/-- `~(X <= 0).any(axis=0)` (line 267): a column is log-transformed when no
observed entry is `<= 0` (non-finite entries do not count). -/
def islogvarOf (X : List (List FVal)) : List Bool :=
  (List.range (X.headD []).length).map
    (fun j => ! X.any (fun row => leZeroF (row.getD j none)))

/-- One entry of `numpy.where(islogvar, log10(X), X)` (lines 269, 307):
`log10` of a non-positive or non-finite float is non-finite. -/
def applyTransform (flag : Bool) (x : FVal) : FVal :=
  if flag then
    match x with
    | none => none
    | some v => if 0 < v then some (Real.logb 10 v) else none
  else x

/-- The transformed matrix `XT`. -/
def transformRows (flags : List Bool) (X : List (List FVal)) : List (List FVal) :=
  X.map (fun row => List.zipWith applyTransform flags row)

/-- `XT[mask,:]` for `mask = (y == label)`. -/
def selectRows (XT : List (List FVal)) (y : List ℤ) (label : ℤ) : List (List FVal) :=
  (XT.zip y).filterMap (fun p => if p.2 = label then some p.1 else none)

/-- The constructor arguments of `MultiGaussNaiveBayesClassifier` that affect
the computed values (`plot_prefix`, `column_names`, `verbose` and `parallel`
only affect printing, plotting and scheduling). -/
structure Config where
  all_labels : Option (List ℤ)
  nmin_multigauss : ℕ
  Ngauss_init : ℕ
  VB_iter : ℕ

/-- Column `j` of a row-major matrix (one column of `x.transpose()`). -/
def columnOf (x : List (List FVal)) (j : ℕ) : List FVal :=
  x.map (fun row => row.getD j none)

/-- `_make_mixture(x)` (lines 143-157): one `_make_mixture_for_column` call
per column, in column order (identical with or without a parallel pool). -/
def makeMixtureCols (vb : List ℝ → Mixture → Mixture) (cfg : Config)
    (x : List (List FVal)) : List (Option Mixture) :=
  (List.range (x.headD []).length).map (fun j =>
    makeMixtureForColumn vb cfg.Ngauss_init cfg.nmin_multigauss cfg.VB_iter
      (columnOf x j))

/-- The attributes `fit` stores (lines 257-298). -/
structure Fitted where
  classes_ : List ℤ
  X_ : List (List FVal)
  y_ : List ℤ
  populated_columns_ : List ℕ
  class_properties_ : List (ℤ × List (Option Mixture))
  KL_ : List (List (List ℝ))

/-- The mutable state of a `MultiGaussNaiveBayesClassifier` instance:
configuration, the `islogvar` attribute (`None` until the first fit), the
fitted attributes (absent before a successful fit, so that `check_is_fitted`
can be modelled), and the three attributes `_predict` writes. -/
structure NBModel where
  cfg : Config
  islogvar : Option (List Bool)
  fitted : Option Fitted
  nearest_ : Option (List ℕ)
  logproba_ : Option (List (List ℝ))
  surprise_ : Option (List ℝ)

/-- Lines 266-268: `islogvar` is recomputed from `X` only when it is still
`None`; otherwise the stored flags are reused. -/
def fitFlags (m : NBModel) (X : List (List FVal)) : List Bool :=
  match m.islogvar with
  | none => islogvarOf X
  | some fl => fl

/-- Lines 260-263: the class label set, from `y` unless `all_labels` is set. -/
def fitClasses (cfg : Config) (y : List ℤ) : List ℤ :=
  match cfg.all_labels with
  | none => uniqueLabels y
  | some ls => ls

/-- The fitted attributes computed by `fit(X, y)` (lines 257-298) from the
configuration, the transform flags, and the training data: per populated class
a `(label, feature distributions)` pair, and for each ordered pair of
populated classes with `l2 > l1` the per-feature KL vector. -/
def fitFitted (vb : List ℝ → Mixture → Mixture) (klE : Mixture → Mixture → ℝ)
    (cfg : Config) (flags : List Bool) (X : List (List FVal)) (y : List ℤ) : Fitted :=
  let classes := fitClasses cfg y
  let XT := transformRows flags X
  let popIdx := (List.range classes.length).filter
    (fun i => y.contains (classes.getD i 0))
  let cps := popIdx.map (fun i =>
    (classes.getD i 0, makeMixtureCols vb cfg (selectRows XT y (classes.getD i 0))))
  { classes_ := classes
    X_ := X
    y_ := y
    populated_columns_ := popIdx
    class_properties_ := cps
    KL_ := cps.map (fun p1 => cps.filterMap (fun p2 =>
      if p2.1 ≤ p1.1 then none else some (evalInfoSingle klE p1.2 p2.2))) }

/-- `fit(X, y)`: overwrites `islogvar` (with the old flags unless they were
still `None`) and the fitted attributes; the prediction attributes are left
as they were. -/
def fitModel (vb : List ℝ → Mixture → Mixture) (klE : Mixture → Mixture → ℝ)
    (m : NBModel) (X : List (List FVal)) (y : List ℤ) : NBModel :=
  { m with
    islogvar := some (fitFlags m X)
    fitted := some (fitFitted vb klE m.cfg (fitFlags m X) X y) }

/-- `numpy.argmax` over a list: the first index attaining the maximum. -/
def argmaxIdx : List ℝ → ℕ
  | [] => 0
  | [_] => 0
  | v :: w :: vs =>
    if (w :: vs).getD (argmaxIdx (w :: vs)) 0 ≤ v then 0
    else argmaxIdx (w :: vs) + 1

/-- Line 305: the uniform log-prior `-log(len(self.classes_))` used by
`_predict`. -/
def predictLogprior (f : Fitted) : ℝ := -Real.log ((f.classes_.length : ℝ))

/-- One row of `Xlogprobs` (lines 308-310): the aggregated log-score of every
populated class for one (already transformed) observation row. -/
def predictScoresRow (cps : List (ℤ × List (Option Mixture))) (logprior : ℝ)
    (row : List FVal) : List ℝ :=
  cps.map (fun p => evalFeatureDistRow p.2 row logprior)

/-- The matrix `Xlogprobs` of `_predict` (lines 307-310), row-major: the
transformed observations, each scored against every populated class. -/
def predictScores (f : Fitted) (flags : List Bool) (X : List (List FVal)) :
    List (List ℝ) :=
  (transformRows flags X).map
    (predictScoresRow f.class_properties_ (predictLogprior f))

/-- `_predict(X)` (lines 300-317): requires a fitted instance
(`check_is_fitted`), transforms `X` with the stored flags, scores every row
against every populated class, and stores `nearest_` (the per-row argmax over
classes, taken before normalization), `logproba_` (the scores normalized by
the per-row log-sum-exp) and `surprise_`. -/
def predictUnderscore (m : NBModel) (X : List (List FVal)) : Option NBModel :=
  match m.fitted, m.islogvar with
  | some f, some flags =>
    let scores := predictScores f flags X
    let logprobany := scores.map logsumexp
    let nearest := scores.map argmaxIdx
    let logproba := List.zipWith (fun srow c => srow.map (fun s => s - c))
      scores logprobany
    some { m with
      nearest_ := some nearest
      logproba_ := some logproba
      surprise_ := some logprobany }
  | _, _ => none

/-- The instance state after a `_predict` call (unchanged when `_predict`
raises the not-fitted error). -/
def predictUnderscoreRun (m : NBModel) (X : List (List FVal)) : NBModel :=
  (predictUnderscore m X).getD m

/-- `predict(X)` (lines 319-321): runs `_predict` and returns `nearest_`. -/
def predict (m : NBModel) (X : List (List FVal)) : NBModel × Option (List ℕ) :=
  (predictUnderscoreRun m X, (predictUnderscoreRun m X).nearest_)

/-- `predict_proba(X)` (lines 323-325): runs `_predict` and returns
`exp(logproba_)`. -/
def predictProba (m : NBModel) (X : List (List FVal)) :
    NBModel × Option (List (List ℝ)) :=
  (predictUnderscoreRun m X,
   (predictUnderscoreRun m X).logproba_.map (fun M => M.map (List.map Real.exp)))

/-- `predict_log_proba(X)` (lines 327-329): runs `_predict` and returns
`logproba_`. -/
def predictLogProba (m : NBModel) (X : List (List FVal)) :
    NBModel × Option (List (List ℝ)) :=
  (predictUnderscoreRun m X, (predictUnderscoreRun m X).logproba_)

/-! Concrete instances used by the counterexamples and witnesses below.
`vbId` and `klZero` are placeholder injections for the two external pypmc
routines; on every concrete input below the variational branch is never
reached, so the choice is irrelevant there. -/

/-- Placeholder for the external variational refinement. -/
def vbId : List ℝ → Mixture → Mixture := fun _ mix => mix

/-- Placeholder for the external Monte-Carlo KL estimate. -/
def klZero : Mixture → Mixture → ℝ := fun _ _ => 0

/-- Default configuration except `VB_iter = 0` (mixture refinement disabled,
a recognized configuration per the interface). -/
def cfg0 : Config :=
  { all_labels := none, nmin_multigauss := 10, Ngauss_init := 5, VB_iter := 0 }

/-- `cfg0` with `all_labels` set to a strict superset of the training labels. -/
def cfgSuperset : Config :=
  { all_labels := some [1, 2, 3], nmin_multigauss := 10, Ngauss_init := 5, VB_iter := 0 }

/-- A freshly constructed instance with configuration `cfg0`. -/
def m0 : NBModel :=
  { cfg := cfg0, islogvar := none, fitted := none,
    nearest_ := none, logproba_ := none, surprise_ := none }

/-- A freshly constructed instance with configuration `cfgSuperset`. -/
def m3 : NBModel :=
  { cfg := cfgSuperset, islogvar := none, fitted := none,
    nearest_ := none, logproba_ := none, surprise_ := none }

/-- A small training matrix: one feature, one row per class, with a
non-positive entry so no log-transform is selected. -/
def X0 : List (List FVal) := [[some (-1)], [some 2]]

/-- Labels for `X0`. -/
def y0 : List ℤ := [1, 2]

/-- The fitted attributes `fit(X0, y0)` produces on a fresh `cfg0` instance:
each class has a single training row, so both per-feature samples have zero
variance and both mixtures are absent. -/
def F1 : Fitted :=
  { classes_ := [1, 2]
    X_ := X0
    y_ := y0
    populated_columns_ := [0, 1]
    class_properties_ := [(1, [none]), (2, [none])]
    KL_ := [[[]], []] }

/-- The instance state after `fit(X0, y0)` on `m0`. -/
def M1 : NBModel :=
  { cfg := cfg0, islogvar := some [false], fitted := some F1,
    nearest_ := none, logproba_ := none, surprise_ := none }

/-- The first training matrix of the refit counterexample: its only column
contains a non-positive value, so the first fit sets `islogvar = [false]`. -/
def X1c : List (List FVal) := [[some (-1)], [some 1]]

/-- The second training matrix of the refit counterexample: strictly
positive, so a fresh fit sets `islogvar = [true]`. -/
def X2c : List (List FVal) := [[some 1], [some 2]]

/-- The single-component mixture the fast path builds from the sample
`[0, 4]`: mean 2, and `sigma` holds the standard deviation 2. -/
def mixA : Mixture := { components := [{ mu := 2, sigma := 2 }], weights := [1] }

/-- The single-component mixture the fast path builds from the sample
`[-1, 3]`: mean 1, standard deviation 2. -/
def mixB : Mixture := { components := [{ mu := 1, sigma := 2 }], weights := [1] }

/-- Training matrix with two features: feature 0 is informative for both
classes, feature 1 is constant (hence absent) for class 1 only. -/
def X4 : List (List FVal) :=
  [[some 0, some 7], [some 4, some 7], [some 0, some (-1)], [some 4, some 3]]

/-- Labels for `X4`. -/
def y4 : List ℤ := [1, 1, 2, 2]

/-- The fitted attributes `fit(X4, y4)` produces on a fresh `cfg0` instance:
class 1 has mixtures `[present, absent]`, class 2 has `[present, present]`,
and the KL vector of the pair `(1, 2)` holds a single entry (feature 1 is
skipped). -/
def F4 : Fitted :=
  { classes_ := [1, 2]
    X_ := X4
    y_ := y4
    populated_columns_ := [0, 1]
    class_properties_ := [(1, [some mixA, none]), (2, [some mixA, some mixB])]
    KL_ := [[[0]], []] }

/-- The instance state after `fit(X4, y4)` on `m0`. -/
def M4 : NBModel :=
  { cfg := cfg0, islogvar := some [false, false], fitted := some F4,
    nearest_ := none, logproba_ := none, surprise_ := none }

/-! Helper lemmas. -/

lemma log_minprob_nonpos : Real.log minprobVal ≤ 0 := by
  have h : (minprobVal : ℝ) ≤ 1 := by norm_num [minprobVal]
  exact Real.log_nonpos (by norm_num [minprobVal]) h

lemma featureContribution_absent (x : FVal) : featureContribution none x = 0 := by
  simp only [featureContribution]
  rw [if_neg]
  exact fun h => absurd (lt_of_lt_of_le h log_minprob_nonpos) (lt_irrefl 0)

lemma featureContribution_nonfinite (m : Option Mixture) :
    featureContribution m none = 0 := by
  cases m with
  | none => exact featureContribution_absent none
  | some mix =>
    simp only [featureContribution, mixLogpdf]
    rw [if_neg]
    exact fun h => absurd (lt_of_lt_of_le h log_minprob_nonpos) (lt_irrefl 0)

lemma evalFeatureDistRow_all_nonfinite (fds : List (Option Mixture))
    (row : List FVal) (logprior : ℝ) (hrow : ∀ v ∈ row, v = none) :
    evalFeatureDistRow fds row logprior = logprior := by
  have hz : (List.zipWith featureContribution fds row).sum = 0 := by
    induction fds generalizing row with
    | nil => simp
    | cons m ms ih =>
      cases row with
      | nil => simp
      | cons x xs =>
        have hx : x = none := hrow x (by simp)
        have hxs : ∀ v ∈ xs, v = none := fun v hv => hrow v (by simp [hv])
        simp [hx, featureContribution_nonfinite, ih xs hxs]
  simp [evalFeatureDistRow, hz]

lemma sampleMean_single (v : ℝ) : sampleMean [v] = v := by
  simp [sampleMean]

lemma sampleStd_single (v : ℝ) : sampleStd [v] = 0 := by
  simp [sampleStd, sampleMean_single]

lemma sampleMean_pair (a b : ℝ) : sampleMean [a, b] = (a + b) / 2 := by
  norm_num [sampleMean]

lemma sampleStd_pair (a b : ℝ) : sampleStd [a, b] = |a - b| / 2 := by
  have h : ((a - sampleMean [a, b]) ^ 2 + ((b - sampleMean [a, b]) ^ 2 + 0)) /
      (([a, b].length : ℕ) : ℝ) = ((a - b) / 2) ^ 2 := by
    rw [sampleMean_pair]
    norm_num
    ring
  simp only [sampleStd, List.map, List.sum_cons, List.sum_nil]
  rw [show (([a, b] : List ℝ).length : ℝ) = 2 by norm_num]
  rw [show (a - sampleMean [a, b]) ^ 2 + ((b - sampleMean [a, b]) ^ 2 + 0) =
      ((a - b) / 2) ^ 2 + (((a - b) / 2) ^ 2 + 0) by rw [sampleMean_pair]; ring]
  rw [show (((a - b) / 2) ^ 2 + (((a - b) / 2) ^ 2 + 0)) / 2 = ((a - b) / 2) ^ 2 by ring]
  rw [Real.sqrt_sq_eq_abs, abs_div]
  norm_num

lemma makeMixtureForColumn_degenerate (vb : List ℝ → Mixture → Mixture)
    (Ngauss_init nmin_multigauss VB_iter : ℕ) (col0 : List FVal)
    (h : finiteVals col0 = [] ∨ sampleStd (finiteVals col0) = 0) :
    makeMixtureForColumn vb Ngauss_init nmin_multigauss VB_iter col0 = none := by
  have hc : (finiteVals col0).length = 0 ∨ ¬ sampleStd (finiteVals col0) > 0 := by
    rcases h with h | h
    · exact Or.inl (by simp [h])
    · exact Or.inr (by rw [h]; exact lt_irrefl 0)
  simp only [makeMixtureForColumn]
  rw [if_pos hc]

lemma makeMixtureForColumn_fastpath (vb : List ℝ → Mixture → Mixture)
    (Ngauss_init nmin_multigauss VB_iter : ℕ) (col0 : List FVal)
    (hstd : 0 < sampleStd (finiteVals col0))
    (hfast : (finiteVals col0).length < nmin_multigauss ∨ VB_iter = 0) :
    makeMixtureForColumn vb Ngauss_init nmin_multigauss VB_iter col0 =
      some (createGaussianMixture [sampleMean (finiteVals col0)]
        [sampleStd (finiteVals col0)]) := by
  have hne : ¬ ((finiteVals col0).length = 0 ∨ ¬ sampleStd (finiteVals col0) > 0) := by
    push_neg
    constructor
    · intro h0
      have : sampleStd (finiteVals col0) = 0 := by
        have he : finiteVals col0 = [] := List.length_eq_zero.mp h0
        simp [sampleStd, he]
      exact absurd (this ▸ hstd) (lt_irrefl 0)
    · exact hstd
  simp only [makeMixtureForColumn]
  rw [if_neg hne, if_pos hfast]

lemma sqrt_four : Real.sqrt 4 = 2 := by
  rw [show (4 : ℝ) = 2 ^ 2 by norm_num, Real.sqrt_sq (by norm_num : (0 : ℝ) ≤ 2)]

lemma argmaxIdx_lt (l : List ℝ) (h : l ≠ []) : argmaxIdx l < l.length := by
  induction l with
  | nil => exact absurd rfl h
  | cons v vs ih =>
    cases vs with
    | nil => simp [argmaxIdx]
    | cons w ws =>
      simp only [argmaxIdx]
      by_cases hle : (w :: ws).getD (argmaxIdx (w :: ws)) 0 ≤ v
      · rw [if_pos hle]; simp
      · rw [if_neg hle]
        have := ih (by simp)
        simpa [Nat.succ_lt_succ_iff] using this

lemma argmaxIdx_ge (l : List ℝ) (j : ℕ) (hj : j < l.length) :
    l.getD j 0 ≤ l.getD (argmaxIdx l) 0 := by
  induction l generalizing j with
  | nil => simp at hj
  | cons v vs ih =>
    cases vs with
    | nil =>
      cases j with
      | zero => simp [argmaxIdx]
      | succ k => simp at hj
    | cons w ws =>
      simp only [argmaxIdx]
      by_cases hle : (w :: ws).getD (argmaxIdx (w :: ws)) 0 ≤ v
      · rw [if_pos hle]
        cases j with
        | zero => simp
        | succ k =>
          have hk : k < (w :: ws).length := by simpa using hj
          have := ih k hk
          simpa using le_trans this hle
      · rw [if_neg hle]
        cases j with
        | zero => simpa using le_of_lt (lt_of_not_le hle)
        | succ k =>
          have hk : k < (w :: ws).length := by simpa using hj
          simpa using ih k hk

lemma sum_map_exp_pos (s : List ℝ) (h : s ≠ []) : 0 < (s.map Real.exp).sum := by
  cases s with
  | nil => exact absurd rfl h
  | cons a t =>
    simp only [List.map_cons, List.sum_cons]
    refine add_pos_of_pos_of_nonneg (Real.exp_pos a) (List.sum_nonneg ?_)
    intro x hx
    obtain ⟨y, -, rfl⟩ := List.mem_map.mp hx
    exact (Real.exp_pos y).le

lemma sum_map_exp_mul (s : List ℝ) (c : ℝ) :
    (s.map (fun v => Real.exp v * c)).sum = (s.map Real.exp).sum * c := by
  induction s with
  | nil => simp
  | cons a t ih => simp [ih, add_mul]

lemma normalized_exp_sum (s : List ℝ) (h : s ≠ []) :
    ((s.map (fun v => v - logsumexp s)).map Real.exp).sum = 1 := by
  have hpos := sum_map_exp_pos s h
  have hexp : Real.exp (logsumexp s) = (s.map Real.exp).sum :=
    Real.exp_log hpos
  have hcomp : (s.map (fun v => v - logsumexp s)).map Real.exp
      = s.map (fun v => Real.exp v * (Real.exp (logsumexp s))⁻¹) := by
    rw [List.map_map]
    refine List.map_congr_left ?_
    intro v _
    simp [Function.comp, Real.exp_sub, div_eq_mul_inv]
  rw [hcomp, sum_map_exp_mul, hexp]
  exact mul_inv_cancel₀ (ne_of_gt hpos)

lemma mkcol_singleton (vb : List ℝ → Mixture → Mixture)
    (n1 n2 n3 : ℕ) (v : ℝ) :
    makeMixtureForColumn vb n1 n2 n3 [some v] = none := by
  apply makeMixtureForColumn_degenerate
  refine Or.inr ?_
  have : finiteVals [some v] = [v] := by simp [finiteVals]
  rw [this, sampleStd_single]

lemma mkcol_const_pair (vb : List ℝ → Mixture → Mixture)
    (n1 n2 n3 : ℕ) (v : ℝ) :
    makeMixtureForColumn vb n1 n2 n3 [some v, some v] = none := by
  apply makeMixtureForColumn_degenerate
  refine Or.inr ?_
  have : finiteVals [some v, some v] = [v, v] := by simp [finiteVals]
  rw [this, sampleStd_pair]
  simp

lemma islogvar_X0 : islogvarOf X0 = [false] := by
  have h1 : decide ((-1 : ℝ) ≤ 0) = true := decide_eq_true (by norm_num)
  simp [islogvarOf, X0, leZeroF, List.range_succ, h1]

lemma uniq_y0 : uniqueLabels [1, 2] = [1, 2] := by decide

lemma fitFitted_X0 : fitFitted vbId klZero cfg0 [false] X0 y0 = F1 := by
  have hc1 : makeMixtureForColumn vbId 5 10 0 [some (-1)] = none :=
    mkcol_singleton vbId 5 10 0 (-1)
  have hc2 : makeMixtureForColumn vbId 5 10 0 [some 2] = none :=
    mkcol_singleton vbId 5 10 0 2
  simp [fitFitted, fitClasses, cfg0, X0, y0, uniq_y0, F1, transformRows,
    applyTransform, selectRows, makeMixtureCols, columnOf, evalInfoSingle,
    hc1, hc2, List.range_succ]

lemma fit_m0_X0 : fitModel vbId klZero m0 X0 y0 = M1 := by
  have hflags : fitFlags m0 X0 = [false] := by
    simp [fitFlags, m0, islogvar_X0]
  simp only [fitModel, hflags]
  have hcfg : m0.cfg = cfg0 := rfl
  rw [hcfg, fitFitted_X0]
  rfl

lemma mkcol_04 : makeMixtureForColumn vbId 5 10 0 [some 0, some 4] = some mixA := by
  have hf : finiteVals [some 0, some 4] = [0, 4] := by simp [finiteVals]
  have hstd : sampleStd [0, 4] = 2 := by rw [sampleStd_pair]; norm_num
  have hmean : sampleMean [0, 4] = 2 := by rw [sampleMean_pair]; norm_num
  rw [makeMixtureForColumn_fastpath vbId 5 10 0 _ (by rw [hf, hstd]; norm_num)
    (Or.inr rfl), hf, hstd, hmean]
  simp [createGaussianMixture, mixA]

lemma mkcol_m13 : makeMixtureForColumn vbId 5 10 0 [some (-1), some 3] = some mixB := by
  have hf : finiteVals [some (-1), some 3] = [-1, 3] := by simp [finiteVals]
  have hstd : sampleStd [-1, 3] = 2 := by
    rw [sampleStd_pair]
    rw [show |(-1 : ℝ) - 3| = 4 by rw [abs_of_nonpos] <;> norm_num]
    norm_num
  have hmean : sampleMean [-1, 3] = 1 := by rw [sampleMean_pair]; norm_num
  rw [makeMixtureForColumn_fastpath vbId 5 10 0 _ (by rw [hf, hstd]; norm_num)
    (Or.inr rfl), hf, hstd, hmean]
  simp [createGaussianMixture, mixB]

lemma islogvar_X4 : islogvarOf X4 = [false, false] := by
  have h0 : decide ((0 : ℝ) ≤ 0) = true := decide_eq_true le_rfl
  have hm1 : decide ((-1 : ℝ) ≤ 0) = true := decide_eq_true (by norm_num)
  have h7 : decide ((7 : ℝ) ≤ 0) = false := decide_eq_false (by norm_num)
  have h4 : decide ((4 : ℝ) ≤ 0) = false := decide_eq_false (by norm_num)
  have h3 : decide ((3 : ℝ) ≤ 0) = false := decide_eq_false (by norm_num)
  simp [islogvarOf, X4, leZeroF, List.range_succ, h0, hm1, h7, h4, h3]

lemma uniq_y4 : uniqueLabels [1, 1, 2, 2] = [1, 2] := by decide

lemma fitFitted_X4 : fitFitted vbId klZero cfg0 [false, false] X4 y4 = F4 := by
  have hc77 : makeMixtureForColumn vbId 5 10 0 [some 7, some 7] = none :=
    mkcol_const_pair vbId 5 10 0 7
  simp [fitFitted, fitClasses, cfg0, X4, y4, uniq_y4, F4, transformRows,
    applyTransform, selectRows, makeMixtureCols, columnOf, evalInfoSingle,
    klZero, mkcol_04, mkcol_m13, hc77, List.range_succ]

lemma fit_m0_X4 : fitModel vbId klZero m0 X4 y4 = M4 := by
  have hflags : fitFlags m0 X4 = [false, false] := by
    simp [fitFlags, m0, islogvar_X4]
  simp only [fitModel, hflags]
  have hcfg : m0.cfg = cfg0 := rfl
  rw [hcfg, fitFitted_X4]
  rfl

lemma islogvar_X1c : islogvarOf X1c = [false] := by
  have h1 : decide ((-1 : ℝ) ≤ 0) = true := decide_eq_true (by norm_num)
  simp [islogvarOf, X1c, leZeroF, List.range_succ, h1]

lemma islogvar_X2c : islogvarOf X2c = [true] := by
  have h1 : decide ((1 : ℝ) ≤ 0) = false := decide_eq_false (by norm_num)
  have h2 : decide ((2 : ℝ) ≤ 0) = false := decide_eq_false (by norm_num)
  simp [islogvarOf, X2c, leZeroF, List.range_succ, h1, h2]

lemma argmax_pair_same (a : ℝ) : argmaxIdx [a, a] = 0 := by
  simp [argmaxIdx]

lemma predict_M1_nearest : (predict M1 [[some 5]]).2 = some [0] := by
  simp [predict, predictUnderscoreRun, predictUnderscore, predictScores, M1, F1,
    transformRows, applyTransform, predictScoresRow, evalFeatureDistRow,
    featureContribution_absent, argmax_pair_same]

section PercentileLemmas

variable {α : Type} [LinearOrderedField α] [FloorRing α]

lemma getD_map_of_lt {β γ : Type} (f : β → γ) (l : List β) (i : ℕ)
    (h : i < l.length) (d : β) (d' : γ) :
    (l.map f).getD i d' = f (l.getD i d) := by
  rw [List.getD_eq_getElem (l.map f) d' (by simpa using h),
    List.getD_eq_getElem l d h, List.getElem_map]

lemma getLastD_eq_getD (l : List α) (d : α) :
    l.getLastD d = l.getD (l.length - 1) d := by
  induction l generalizing d with
  | nil => rfl
  | cons a t ih =>
    cases t with
    | nil => rfl
    | cons b u =>
      rw [List.getLastD_cons, ih]
      simp

lemma sorted_getD_mono (a : List α) (ha : a.Sorted (· ≤ ·)) {i j : ℕ}
    (hij : i ≤ j) (hj : j < a.length) : a.getD i 0 ≤ a.getD j 0 := by
  have hi : i < a.length := lt_of_le_of_lt hij hj
  rw [List.getD_eq_getElem a 0 hi, List.getD_eq_getElem a 0 hj]
  rcases eq_or_lt_of_le hij with rfl | hlt
  · exact le_refl _
  · have := List.pairwise_iff_get.mp ha ⟨i, hi⟩ ⟨j, hj⟩ hlt
    simpa using this

lemma interpAt_mono (a : List α) (ha : a.Sorted (· ≤ ·)) (hne : a ≠ [])
    {h1 h2 : α} (h0 : 0 ≤ h1) (h12 : h1 ≤ h2) (hn : h2 ≤ (a.length : α) - 1) :
    interpAt a h1 ≤ interpAt a h2 := by
  have hn1 : 1 ≤ a.length := List.length_pos.mpr hne
  have hf1 : (0 : ℤ) ≤ Int.floor h1 := Int.floor_nonneg.mpr h0
  have hf12 : Int.floor h1 ≤ Int.floor h2 := Int.floor_le_floor h12
  have hf2 : (0 : ℤ) ≤ Int.floor h2 := le_trans hf1 hf12
  have hcastn : ((a.length : α) - 1) = (((a.length : ℤ) - 1 : ℤ) : α) := by
    push_cast
    ring
  have hup2 : Int.floor h2 ≤ (a.length : ℤ) - 1 := by
    have := Int.floor_le_floor hn
    rwa [hcastn, Int.floor_intCast] at this
  have hup1 : Int.floor h1 ≤ (a.length : ℤ) - 1 := le_trans hf12 hup2
  have hg1u : h1 - ((Int.floor h1 : ℤ) : α) < 1 := by
    have := Int.lt_floor_add_one h1
    linarith
  have hg2l : 0 ≤ h2 - ((Int.floor h2 : ℤ) : α) := sub_nonneg.mpr (Int.floor_le h2)
  have hi12 : (Int.floor h1).toNat ≤ (Int.floor h2).toNat := Int.toNat_le_toNat hf12
  have hi2n : (Int.floor h2).toNat ≤ a.length - 1 := by omega
  have hi2lt : (Int.floor h2).toNat < a.length := by omega
  unfold interpAt
  rcases lt_or_eq_of_le hi12 with hlt | heq
  · -- the two fractional indices fall into different cells
    have hi11n : (Int.floor h1).toNat + 1 < a.length := by omega
    have hd1 : 0 ≤ a.getD ((Int.floor h1).toNat + 1) 0 - a.getD (Int.floor h1).toNat 0 :=
      sub_nonneg.mpr (sorted_getD_mono a ha (Nat.le_succ _) hi11n)
    have step1 : a.getD (Int.floor h1).toNat 0 +
        (h1 - ((Int.floor h1 : ℤ) : α)) *
          (a.getD ((Int.floor h1).toNat + 1) 0 - a.getD (Int.floor h1).toNat 0)
        ≤ a.getD ((Int.floor h1).toNat + 1) 0 := by
      have hmul : (h1 - ((Int.floor h1 : ℤ) : α)) *
          (a.getD ((Int.floor h1).toNat + 1) 0 - a.getD (Int.floor h1).toNat 0)
          ≤ 1 * (a.getD ((Int.floor h1).toNat + 1) 0 - a.getD (Int.floor h1).toNat 0) :=
        mul_le_mul_of_nonneg_right (le_of_lt hg1u) hd1
      have := add_le_add_left hmul (a.getD (Int.floor h1).toNat 0)
      calc a.getD (Int.floor h1).toNat 0 +
            (h1 - ((Int.floor h1 : ℤ) : α)) *
              (a.getD ((Int.floor h1).toNat + 1) 0 - a.getD (Int.floor h1).toNat 0)
          ≤ a.getD (Int.floor h1).toNat 0 +
            1 * (a.getD ((Int.floor h1).toNat + 1) 0 - a.getD (Int.floor h1).toNat 0) := this
        _ = a.getD ((Int.floor h1).toNat + 1) 0 := by ring
    have step2 : a.getD ((Int.floor h1).toNat + 1) 0 ≤ a.getD (Int.floor h2).toNat 0 :=
      sorted_getD_mono a ha (by omega) hi2lt
    have step3 : a.getD (Int.floor h2).toNat 0 ≤
        a.getD (Int.floor h2).toNat 0 +
          (h2 - ((Int.floor h2 : ℤ) : α)) *
            (a.getD ((Int.floor h2).toNat + 1) 0 - a.getD (Int.floor h2).toNat 0) := by
      by_cases hb : (Int.floor h2).toNat + 1 < a.length
      · have hd2 : 0 ≤ a.getD ((Int.floor h2).toNat + 1) 0 - a.getD (Int.floor h2).toNat 0 :=
          sub_nonneg.mpr (sorted_getD_mono a ha (Nat.le_succ _) hb)
        exact le_add_of_nonneg_right (mul_nonneg hg2l hd2)
      · have hfl2 : Int.floor h2 = (a.length : ℤ) - 1 := by omega
        have hh2 : h2 = ((Int.floor h2 : ℤ) : α) := by
          have h2ge : ((Int.floor h2 : ℤ) : α) ≤ h2 := Int.floor_le h2
          have h2le : h2 ≤ ((Int.floor h2 : ℤ) : α) := by
            rw [hfl2, ← hcastn]
            exact hn
          linarith
        rw [← hh2]
        simp
    exact le_trans step1 (le_trans step2 step3)
  · -- both fractional indices fall into the same cell
    have hfeq : Int.floor h1 = Int.floor h2 := by omega
    rw [← hfeq]
    by_cases hb : (Int.floor h1).toNat + 1 < a.length
    · have hd1 : 0 ≤ a.getD ((Int.floor h1).toNat + 1) 0 - a.getD (Int.floor h1).toNat 0 :=
        sub_nonneg.mpr (sorted_getD_mono a ha (Nat.le_succ _) hb)
      exact add_le_add_left
        (mul_le_mul_of_nonneg_right (sub_le_sub_right h12 _) hd1) _
    · have hfl1 : Int.floor h1 = (a.length : ℤ) - 1 := by omega
      have hh12 : h1 = h2 := by
        have h1ge : ((Int.floor h1 : ℤ) : α) ≤ h1 := Int.floor_le h1
        have h2le : h2 ≤ ((Int.floor h1 : ℤ) : α) := by
          rw [hfl1, ← hcastn]
          exact hn
        linarith
      rw [hh12]

lemma percentileLevel_mono (a : List α) (ha : a.Sorted (· ≤ ·)) (hne : a ≠ [])
    {q1 q2 : α} (h0 : 0 ≤ q1) (h12 : q1 ≤ q2) (h100 : q2 ≤ 100) :
    percentileLevel a q1 ≤ percentileLevel a q2 := by
  have hn1 : 1 ≤ a.length := List.length_pos.mpr hne
  have hsub : (0 : α) ≤ (a.length : α) - 1 := by
    have : (1 : α) ≤ (a.length : α) := by exact_mod_cast hn1
    linarith
  apply interpAt_mono a ha hne
  · exact mul_nonneg (div_nonneg h0 (by norm_num)) hsub
  · refine mul_le_mul_of_nonneg_right ?_ hsub
    exact (div_le_div_right (by norm_num : (0 : α) < 100)).mpr h12
  · have hq : q2 / 100 ≤ 1 := by
      rw [div_le_one (by norm_num : (0 : α) < 100)]
      exact h100
    calc q2 / 100 * ((a.length : α) - 1) ≤ 1 * ((a.length : α) - 1) :=
          mul_le_mul_of_nonneg_right hq hsub
      _ = (a.length : α) - 1 := one_mul _

lemma percentile_mono (x : List α) (hx : x ≠ []) {q1 q2 : α}
    (h0 : 0 ≤ q1) (h12 : q1 ≤ q2) (h100 : q2 ≤ 100) :
    percentile x q1 ≤ percentile x q2 := by
  unfold percentile
  apply percentileLevel_mono
  · exact List.sorted_insertionSort _ x
  · intro h
    have := congrArg List.length h
    rw [List.length_insertionSort] at this
    exact hx (List.length_eq_zero.mp this)
  · exact h0
  · exact h12
  · exact h100

lemma specBoundary_mono (x : List α) (hx : x ≠ []) (K : ℕ) (hK : 1 ≤ K)
    {i j : ℕ} (hij : i ≤ j) (hjK : j ≤ K) :
    specBoundary x K i ≤ specBoundary x K j := by
  have hKpos : (0 : α) < (K : α) := by exact_mod_cast hK
  apply percentile_mono x hx
  · positivity
  · refine (div_le_div_right hKpos).mpr ?_
    have : (i : α) ≤ (j : α) := by exact_mod_cast hij
    nlinarith
  · rw [div_le_iff hKpos]
    have : (j : α) ≤ (K : α) := by exact_mod_cast hjK
    nlinarith

lemma headD_eq_getD (l : List α) (d : α) : l.headD d = l.getD 0 d := by
  cases l <;> rfl

lemma levels_len (K : ℕ) (hK : 1 ≤ K) :
    ((([(0 : α)] ++ (List.range' 1 (K - 1)).map
        (fun j : ℕ => (j : α) * 100 / (K : α))) ++ [100]).length) = K + 1 := by
  rw [List.length_append, List.length_append, List.length_map, List.length_range']
  simp
  omega

lemma levels_getD (K : ℕ) (hK : 1 ≤ K) (i : ℕ) (hi : i ≤ K) :
    ((([(0 : α)] ++ (List.range' 1 (K - 1)).map
        (fun j : ℕ => (j : α) * 100 / (K : α))) ++ [100]).getD i 0)
      = (i : α) * 100 / (K : α) := by
  have hKpos : (0 : α) < (K : α) := by exact_mod_cast hK
  have hKne : ((K : α)) ≠ 0 := ne_of_gt hKpos
  have hqlen : (([(0 : α)] ++ (List.range' 1 (K - 1)).map
      (fun j : ℕ => (j : α) * 100 / (K : α))).length) = K := by
    rw [List.length_append, List.length_map, List.length_range']
    simp
    omega
  rcases Nat.eq_zero_or_pos i with rfl | hip
  · simp
  · rcases eq_or_lt_of_le hi with rfl | hiK
    · rw [List.getD_append_right _ _ _ _ (le_of_eq hqlen), hqlen, Nat.sub_self]
      simp only [List.getD_cons_zero]
      rw [mul_comm, mul_div_assoc, div_self hKne, mul_one]
    · rw [List.getD_append _ _ _ _ (by rw [hqlen]; exact hiK)]
      obtain ⟨i', rfl⟩ : ∃ i', i = i' + 1 := ⟨i - 1, by omega⟩
      rw [List.singleton_append, List.getD_cons_succ]
      have hlt : i' < (List.range' 1 (K - 1)).length := by
        rw [List.length_range']
        omega
      rw [getD_map_of_lt _ _ _ hlt 0 0]
      rw [List.getD_eq_getElem _ 0 hlt, List.getElem_range'_1]
      norm_num [add_comm]

lemma makeSingleMixture_parts (x : List α) (K : ℕ) (hK : 1 ≤ K) :
    (makeSingleMixture x K).1.length = K ∧ (makeSingleMixture x K).2.length = K ∧
    (∀ i, i < K → (makeSingleMixture x K).1.getD i 0
        = (specBoundary x K i + specBoundary x K (i + 1)) / 2) ∧
    (∀ i, i < K → (makeSingleMixture x K).2.getD i 0
        = max ((specBoundary x K (i + 1) - specBoundary x K i) ^ 2)
            (((specBoundary x K K - specBoundary x K 0) / 100) ^ 2)) := by
  have hLlen := levels_len (α := α) K hK
  have hpsl : ((([(0 : α)] ++ (List.range' 1 (K - 1)).map
      (fun j : ℕ => (j : α) * 100 / (K : α))) ++ [100]).map (percentile x)).length = K + 1 := by
    rw [List.length_map, hLlen]
  have hpsget : ∀ i, i ≤ K →
      ((([(0 : α)] ++ (List.range' 1 (K - 1)).map
        (fun j : ℕ => (j : α) * 100 / (K : α))) ++ [100]).map (percentile x)).getD i 0
        = specBoundary x K i := by
    intro i hi
    have hiL : i < (([(0 : α)] ++ (List.range' 1 (K - 1)).map
        (fun j : ℕ => (j : α) * 100 / (K : α))) ++ [100]).length := by
      rw [hLlen]
      omega
    rw [getD_map_of_lt _ _ _ hiL 0 0, levels_getD K hK i hi]
    rfl
  simp only [makeSingleMixture]
  set ps := (([(0 : α)] ++ (List.range' 1 (K - 1)).map
      (fun j : ℕ => (j : α) * 100 / (K : α))) ++ [100]).map (percentile x) with hps
  have hziplen : (ps.zip (ps.drop 1)).length = K := by
    rw [List.length_zip, List.length_drop, hpsl]
    omega
  have hzipget : ∀ i, i < K →
      (ps.zip (ps.drop 1)).getD i (0, 0) = (ps.getD i 0, ps.getD (1 + i) 0) := by
    intro i hi
    have hizip : i < (ps.zip (ps.drop 1)).length := by rw [hziplen]; exact hi
    have hips : i < ps.length := by rw [hpsl]; omega
    have hips1 : 1 + i < ps.length := by rw [hpsl]; omega
    rw [List.getD_eq_getElem _ _ hizip, List.getElem_zip, List.getElem_drop,
      List.getD_eq_getElem _ 0 hips, List.getD_eq_getElem _ 0 hips1]
  have hmincov : ps.getLastD 0 - ps.headD 0
      = specBoundary x K K - specBoundary x K 0 := by
    rw [getLastD_eq_getD, headD_eq_getD, hpsl]
    rw [show K + 1 - 1 = K from rfl]
    rw [hpsget K le_rfl, hpsget 0 (Nat.zero_le K)]
  refine ⟨?_, ?_, ?_, ?_⟩
  · rw [List.length_map, hziplen]
  · rw [List.length_map, hziplen]
  · intro i hi
    have hizip : i < (ps.zip (ps.drop 1)).length := by rw [hziplen]; exact hi
    rw [getD_map_of_lt _ _ _ hizip (0, 0) 0, hzipget i hi]
    simp only
    rw [hpsget i (by omega), hpsget (1 + i) (by omega)]
    rw [show 1 + i = i + 1 from by omega]
    ring
  · intro i hi
    have hizip : i < (ps.zip (ps.drop 1)).length := by rw [hziplen]; exact hi
    rw [getD_map_of_lt _ _ _ hizip (0, 0) 0, hzipget i hi]
    simp only
    rw [hpsget i (by omega), hpsget (1 + i) (by omega), hmincov]
    rw [show 1 + i = i + 1 from by omega]
    by_cases hgt : (specBoundary x K (i + 1) - specBoundary x K i) ^ 2
        > ((specBoundary x K K - specBoundary x K 0) / 100) ^ 2
    · rw [if_pos hgt, max_eq_left (le_of_lt hgt)]
    · rw [if_neg hgt, max_eq_right (not_lt.mp hgt)]

lemma makeSingleMixture_chain (x : List α) (K : ℕ) (hK : 1 ≤ K) (hx : x ≠ []) :
    List.Chain' (· ≤ ·) (makeSingleMixture x K).1 := by
  obtain ⟨hlen, -, hmean, -⟩ := makeSingleMixture_parts x K hK
  rw [List.chain'_iff_get]
  intro i hi
  rw [hlen] at hi
  have hi1 : i < K := by omega
  have hi2 : i + 1 < K := by omega
  have hg1 : i < (makeSingleMixture x K).1.length := by rw [hlen]; omega
  have hg2 : i + 1 < (makeSingleMixture x K).1.length := by rw [hlen]; omega
  have e1 : (makeSingleMixture x K).1.get ⟨i, hg1⟩ = (makeSingleMixture x K).1.getD i 0 := by
    rw [List.getD_eq_getElem _ 0 hg1]
    simp
  have e2 : (makeSingleMixture x K).1.get ⟨i + 1, hg2⟩
      = (makeSingleMixture x K).1.getD (i + 1) 0 := by
    rw [List.getD_eq_getElem _ 0 hg2]
    simp
  rw [e1, e2, hmean i hi1, hmean (i + 1) hi2]
  have hb1 : specBoundary x K i ≤ specBoundary x K (i + 1) :=
    specBoundary_mono x hx K hK (Nat.le_succ i) (by omega)
  have hb2 : specBoundary x K (i + 1) ≤ specBoundary x K (i + 2) :=
    specBoundary_mono x hx K hK (Nat.le_succ (i + 1)) (by omega)
  linarith

end PercentileLemmas

lemma filterMatch_length (klE : Mixture → Mixture → ℝ)
    (l : List (Option Mixture × Option Mixture)) :
    (l.filterMap (fun p => match p.1, p.2 with
      | some mix1, some mix2 => some (klE mix1 mix2)
      | _, _ => none)).length
    = l.countP (fun p => p.1.isSome && p.2.isSome) := by
  induction l with
  | nil => simp
  | cons a t ih =>
    obtain ⟨a1, a2⟩ := a
    cases a1 <;> cases a2 <;>
      simp [List.filterMap_cons, List.countP_cons, ih]

lemma uniqueLabels_mem (y : List ℤ) (l : ℤ) : l ∈ uniqueLabels y ↔ l ∈ y := by
  unfold uniqueLabels
  rw [(List.perm_insertionSort _ y.dedup).mem_iff]
  exact List.mem_dedup

lemma fitFitted_cps_len (vb : List ℝ → Mixture → Mixture)
    (klE : Mixture → Mixture → ℝ) (cfg : Config) (flags : List Bool)
    (X : List (List FVal)) (y : List ℤ) (ha : cfg.all_labels = none) :
    (fitFitted vb klE cfg flags X y).class_properties_.length
      = (fitFitted vb klE cfg flags X y).classes_.length := by
  simp only [fitFitted]
  rw [List.length_map]
  have hcl : fitClasses cfg y = uniqueLabels y := by
    rw [fitClasses, ha]
  have hall : ∀ i ∈ List.range (fitClasses cfg y).length,
      (y.contains ((fitClasses cfg y).getD i 0)) = true := by
    intro i hi
    rw [hcl] at hi ⊢
    rw [List.mem_range] at hi
    have hmem : (uniqueLabels y).getD i 0 ∈ uniqueLabels y := by
      rw [List.getD_eq_getElem _ 0 hi]
      exact List.getElem_mem hi
    exact List.elem_eq_true_of_mem ((uniqueLabels_mem y _).mp hmem)
  rw [List.filter_eq_self.mpr hall, List.length_range]

lemma transformRows_length (flags : List Bool) (X : List (List FVal)) :
    (transformRows flags X).length = X.length := by
  simp [transformRows]

lemma predictScores_length (f : Fitted) (flags : List Bool)
    (X : List (List FVal)) : (predictScores f flags X).length = X.length := by
  rw [predictScores, List.length_map, transformRows_length]

lemma predictScoresRow_length (cps : List (ℤ × List (Option Mixture)))
    (lp : ℝ) (row : List FVal) :
    (predictScoresRow cps lp row).length = cps.length := by
  simp [predictScoresRow]

lemma predictScores_getD (f : Fitted) (flags : List Bool)
    (X : List (List FVal)) (r : ℕ) (hr : r < X.length) :
    (predictScores f flags X).getD r []
      = predictScoresRow f.class_properties_ (predictLogprior f)
          ((transformRows flags X).getD r []) := by
  rw [predictScores]
  exact getD_map_of_lt _ _ _ (by rw [transformRows_length]; exact hr) [] []

lemma predictUnderscoreRun_eq (m : NBModel) (X : List (List FVal)) (f : Fitted)
    (flags : List Bool) (hf : m.fitted = some f) (hfl : m.islogvar = some flags) :
    predictUnderscoreRun m X =
      { m with
        nearest_ := some ((predictScores f flags X).map argmaxIdx)
        logproba_ := some (List.zipWith (fun srow c => srow.map (fun s => s - c))
          (predictScores f flags X) ((predictScores f flags X).map logsumexp))
        surprise_ := some ((predictScores f flags X).map logsumexp) } := by
  simp [predictUnderscoreRun, predictUnderscore, hf, hfl]

lemma logproba_zip_length (f : Fitted) (flags : List Bool)
    (X : List (List FVal)) :
    (List.zipWith (fun srow c => srow.map (fun s => s - c))
      (predictScores f flags X)
      ((predictScores f flags X).map logsumexp)).length = X.length := by
  rw [List.length_zipWith, List.length_map, predictScores_length]
  simp

lemma nearest_getD (m : NBModel) (X : List (List FVal)) (f : Fitted)
    (flags : List Bool) (hf : m.fitted = some f) (hfl : m.islogvar = some flags)
    (r : ℕ) (hr : r < X.length) :
    ((predictUnderscoreRun m X).nearest_.getD []).getD r 0
      = argmaxIdx ((predictScores f flags X).getD r []) := by
  rw [predictUnderscoreRun_eq m X f flags hf hfl]
  simp only [Option.getD_some]
  exact getD_map_of_lt argmaxIdx _ r
    (by rw [predictScores_length]; exact hr) [] 0

lemma logproba_getD (m : NBModel) (X : List (List FVal)) (f : Fitted)
    (flags : List Bool) (hf : m.fitted = some f) (hfl : m.islogvar = some flags)
    (r : ℕ) (hr : r < X.length) :
    ((predictUnderscoreRun m X).logproba_.getD []).getD r []
      = ((predictScores f flags X).getD r []).map
          (fun s => s - logsumexp ((predictScores f flags X).getD r [])) := by
  rw [predictUnderscoreRun_eq m X f flags hf hfl]
  simp only [Option.getD_some]
  have hsl := predictScores_length f flags X
  have hrz : r < (List.zipWith (fun srow c => srow.map (fun s => s - c))
      (predictScores f flags X)
      ((predictScores f flags X).map logsumexp)).length := by
    rw [logproba_zip_length]
    exact hr
  have hrs : r < (predictScores f flags X).length := by rw [hsl]; exact hr
  rw [List.getD_eq_getElem _ [] hrz, List.getElem_zipWith, List.getElem_map,
    List.getD_eq_getElem _ [] hrs]

/-! Claim theorems. -/

/-- C2, counterexample to the claim as stated: on the two finite samples
`0, 4` (positive variance, fewer than `nmin_multigauss = 10` samples) the fast
path stores the sample standard deviation 2 in the covariance slot, while the
sample variance is 4; they differ, so the single component's variance is not
the sample variance. -/
theorem C2_counterexample :
    makeMixtureForColumn vbId 5 10 1000 [some 0, some 4] = some mixA
    ∧ mixA.components = [{ mu := 2, sigma := 2 }]
    ∧ sampleStd (finiteVals [some 0, some 4]) = 2
    ∧ sampleVariance (finiteVals [some 0, some 4]) = 4
    ∧ (2 : ℝ) ≠ 4 := by
  have hf : finiteVals [some 0, some 4] = [0, 4] := by simp [finiteVals]
  have hstd : sampleStd (finiteVals [some 0, some 4]) = 2 := by
    rw [hf, sampleStd_pair]
    norm_num
  have hmean : sampleMean [0, 4] = 2 := by
    rw [sampleMean_pair]
    norm_num
  refine ⟨?_, rfl, hstd, ?_, by norm_num⟩
  · rw [makeMixtureForColumn_fastpath vbId 5 10 1000 _ (by rw [hstd]; norm_num)
      (Or.inl (by rw [hf]; norm_num)), hf, hmean]
    rw [hf] at hstd
    rw [hstd]
    simp [createGaussianMixture, mixA]
  · rw [hf]
    simp only [sampleVariance, hmean]
    norm_num

/-- C2 (corrected): for every feature sample with positive standard
deviation, when the number of finite samples is below `nmin_multigauss` or the
VB iteration budget is 0, `_make_mixture_for_column` returns a single-component
Gaussian mixture whose mean is the sample mean of the finite entries and whose
stored covariance (the value used downstream as the variance) is the sample
standard deviation — not the sample variance — of the finite entries. -/
theorem C2_theorem (vb : List ℝ → Mixture → Mixture) (n1 n2 n3 : ℕ)
    (col0 : List FVal) (hstd : 0 < sampleStd (finiteVals col0))
    (hfast : (finiteVals col0).length < n2 ∨ n3 = 0) :
    makeMixtureForColumn vb n1 n2 n3 col0 =
      some (createGaussianMixture [sampleMean (finiteVals col0)]
        [sampleStd (finiteVals col0)]) :=
  makeMixtureForColumn_fastpath vb n1 n2 n3 col0 hstd hfast

/-- C2, witness: the amended claim applied to the concrete sample `0, 4`. -/
theorem C2_witness :
    0 < sampleStd (finiteVals [some 0, some 4]) ∧
    makeMixtureForColumn vbId 5 10 1000 [some 0, some 4] =
      some (createGaussianMixture [sampleMean (finiteVals [some 0, some 4])]
        [sampleStd (finiteVals [some 0, some 4])]) := by
  have hf : finiteVals [some 0, some 4] = [0, 4] := by simp [finiteVals]
  have hstd : 0 < sampleStd (finiteVals [some 0, some 4]) := by
    rw [hf, sampleStd_pair]
    norm_num
  exact ⟨hstd, C2_theorem vbId 5 10 1000 _ hstd (Or.inl (by rw [hf]; norm_num))⟩

/-- C3, counterexample to the claim as stated: fitting with
`all_labels = [1, 2, 3]` and training labels `1, 2` produces two populated
classes, but the log-prior used during prediction is `-log 3`, computed from
the configured label count, not `-log 2` from the populated class count. -/
theorem C3_counterexample :
    ((fitModel vbId klZero m3 X0 y0).fitted.map predictLogprior)
      = some (-Real.log 3)
    ∧ ((fitModel vbId klZero m3 X0 y0).fitted.map
        (fun f => f.class_properties_.length)) = some 2
    ∧ -Real.log 3 ≠ -Real.log 2 := by
  have hflags : fitFlags m3 X0 = [false] := by
    simp [fitFlags, m3, islogvar_X0]
  have hcl : (fitFitted vbId klZero m3.cfg [false] X0 y0).classes_ = [1, 2, 3] := by
    simp [fitFitted, fitClasses, m3, cfgSuperset]
  refine ⟨?_, ?_, ?_⟩
  · simp only [fitModel, hflags, Option.map_some']
    rw [predictLogprior, hcl]
    norm_num
  · simp only [fitModel, hflags, Option.map_some']
    have h1 : fitClasses m3.cfg y0 = [1, 2, 3] := rfl
    simp only [fitFitted, h1, List.length_map]
    decide
  · intro h
    have hl : Real.log 2 < Real.log 3 :=
      Real.log_lt_log (by norm_num) (by norm_num)
    exact ne_of_gt hl (neg_inj.mp h)

/-- C3 (corrected): the scalar log-prior added during prediction equals
`-log(len(classes_))`, the log of the number of configured class labels; when
`all_labels` is left unset this coincides with `-log(number of populated
classes)` because every label then comes from `y`, but not when `all_labels`
is a strict superset of the labels present in `y`. -/
theorem C3_theorem (vb : List ℝ → Mixture → Mixture)
    (klE : Mixture → Mixture → ℝ) (m : NBModel) (X : List (List FVal))
    (y : List ℤ) (f : Fitted) (ha : m.cfg.all_labels = none)
    (hf : (fitModel vb klE m X y).fitted = some f) :
    predictLogprior f = -Real.log ((f.class_properties_.length : ℝ)) := by
  simp only [fitModel] at hf
  have hf' : f = fitFitted vb klE m.cfg (fitFlags m X) X y :=
    (Option.some.inj hf).symm
  subst hf'
  rw [predictLogprior, fitFitted_cps_len vb klE m.cfg (fitFlags m X) X y ha]

/-- C3, witness: the amended claim applied to a fit of `X0, y0` on a fresh
instance with `all_labels` unset. -/
theorem C3_witness :
    m0.cfg.all_labels = none
    ∧ predictLogprior F1 = -Real.log ((F1.class_properties_.length : ℝ)) := by
  have hf : (fitModel vbId klZero m0 X0 y0).fitted = some F1 := by
    rw [fit_m0_X0]
    rfl
  exact ⟨rfl, C3_theorem vbId klZero m0 X0 y0 F1 rfl hf⟩

/-- C4, counterexample to the claim as stated: after fitting `X4, y4` (two
features; feature 1 has an absent mixture for class 1 only) the KL vector of
the class pair `(1, 2)` holds a single entry while there are two features:
skipped features leave no absent marker, so entries are not indexable by
feature. -/
theorem C4_counterexample :
    (fitModel vbId klZero m0 X4 y4).fitted = some F4
    ∧ ((F4.KL_.getD 0 []).getD 0 []).length = 1
    ∧ (X4.headD []).length = 2 := by
  refine ⟨?_, rfl, rfl⟩
  rw [fit_m0_X4]
  rfl

/-- C4 (corrected): after every fit, the stored KL structure holds, for each
populated class `l1` in order, the list of KL vectors against every populated
class `l2 > l1`; each vector contains one Monte-Carlo divergence entry per
feature for which both classes' mixtures are present, in feature order, and
features with an absent mixture on either side are skipped entirely (no
absent marker is stored), without raising an error. -/
theorem C4_theorem (vb : List ℝ → Mixture → Mixture)
    (klE : Mixture → Mixture → ℝ) (m : NBModel) (X : List (List FVal))
    (y : List ℤ) (f : Fitted)
    (hf : (fitModel vb klE m X y).fitted = some f) :
    f.KL_ = f.class_properties_.map (fun p1 => f.class_properties_.filterMap
      (fun p2 => if p2.1 ≤ p1.1 then none else some (evalInfoSingle klE p1.2 p2.2)))
    ∧ ∀ (fd1 fd2 : List (Option Mixture)),
        (evalInfoSingle klE fd1 fd2).length
          = (fd1.zip fd2).countP (fun p => p.1.isSome && p.2.isSome) := by
  constructor
  · simp only [fitModel] at hf
    have hf' : f = fitFitted vb klE m.cfg (fitFlags m X) X y :=
      (Option.some.inj hf).symm
    subst hf'
    rfl
  · intro fd1 fd2
    exact filterMatch_length klE (fd1.zip fd2)

/-- C4, witness: the amended claim applied to the fit of `X4, y4`. -/
theorem C4_witness :
    (fitModel vbId klZero m0 X4 y4).fitted = some F4
    ∧ F4.KL_ = F4.class_properties_.map (fun p1 => F4.class_properties_.filterMap
        (fun p2 => if p2.1 ≤ p1.1 then none
          else some (evalInfoSingle klZero p1.2 p2.2))) := by
  have hf : (fitModel vbId klZero m0 X4 y4).fitted = some F4 := by
    rw [fit_m0_X4]
    rfl
  exact ⟨hf, (C4_theorem vbId klZero m0 X4 y4 F4 hf).1⟩

/-- C5, counterexample to the claim as stated: fitting `X1c` (which contains
a non-positive value, transform flag `false`) and then refitting `X2c`
(strictly positive) leaves the transform flags at `[false]`, while a fresh
identically configured instance fit on `X2c` computes `[true]`; the fitted
states differ, so refit does not fully overwrite. -/
theorem C5_counterexample :
    (fitModel vbId klZero (fitModel vbId klZero m0 X1c [1, 2]) X2c [1, 2]).islogvar
      ≠ (fitModel vbId klZero m0 X2c [1, 2]).islogvar := by
  have h1 : (fitModel vbId klZero m0 X1c [1, 2]).islogvar = some [false] := by
    simp [fitModel, fitFlags, m0, islogvar_X1c]
  have h2 : (fitModel vbId klZero (fitModel vbId klZero m0 X1c [1, 2]) X2c [1, 2]).islogvar
      = some [false] := by
    simp [fitModel, fitFlags, m0, islogvar_X1c]
  have h3 : (fitModel vbId klZero m0 X2c [1, 2]).islogvar = some [true] := by
    simp [fitModel, fitFlags, m0, islogvar_X2c]
  rw [h2, h3]
  simp

/-- C5 (corrected): refitting overwrites the stored training data, class set,
class profiles and KL structure, but the per-feature log-transform flags are
computed only on a fit that finds them unset and are then retained: a refit
leaves the instance in the same state as fitting the second data set on a
fresh identically configured instance whose `islogvar` was preset to the flags
the first fit computed. -/
theorem C5_theorem (vb : List ℝ → Mixture → Mixture)
    (klE : Mixture → Mixture → ℝ) (m : NBModel) (X1 : List (List FVal))
    (y1 : List ℤ) (X2 : List (List FVal)) (y2 : List ℤ) :
    fitModel vb klE (fitModel vb klE m X1 y1) X2 y2
      = fitModel vb klE { m with islogvar := (fitModel vb klE m X1 y1).islogvar } X2 y2 := by
  rfl

/-- C6 (confirmed): for a conforming observation row all of whose feature
values are non-finite, the aggregated log-score of `_evaluate_feature_dist`
equals exactly the class log-prior — every feature contributes exactly zero. -/
theorem C6_theorem (fds : List (Option Mixture)) (row : List FVal)
    (logprior : ℝ) (hlen : row.length = fds.length)
    (hrow : ∀ v ∈ row, v = none) :
    evalFeatureDistRow fds row logprior = logprior :=
  evalFeatureDistRow_all_nonfinite fds row logprior hrow

/-- C6, witness: a two-feature class profile (one absent mixture, one present)
evaluated on an all-non-finite row returns exactly the log-prior 5. -/
theorem C6_witness :
    ([none, none] : List FVal).length
      = ([none, some mixA] : List (Option Mixture)).length
    ∧ evalFeatureDistRow [none, some mixA] [none, none] 5 = 5 := by
  refine ⟨rfl, C6_theorem [none, some mixA] [none, none] 5 rfl ?_⟩
  intro v hv
  simp only [List.mem_cons, List.not_mem_nil, or_false] at hv
  rcases hv with h | h <;> exact h

/-- C7 (confirmed): on a sample of at least `K ≥ 1` entries with positive
range, the quantile partitioner returns exactly `K` component means and `K`
component variances; the means are the midpoints of consecutive percentile
boundaries at levels `0, 100/K, ..., 100` (hence monotonically
non-decreasing), and the variances are the squared boundary gaps, raised to
the floor `((max - min)/100)^2` whenever smaller. -/
theorem C7_theorem {α : Type} [LinearOrderedField α] [FloorRing α]
    (x : List α) (K : ℕ) (hK : 1 ≤ K) (hn : K ≤ x.length)
    (hrange : specBoundary x K 0 < specBoundary x K K) :
    ((makeSingleMixture x K).1.length = K ∧ (makeSingleMixture x K).2.length = K)
    ∧ (∀ i, i < K → (makeSingleMixture x K).1.getD i 0
        = (specBoundary x K i + specBoundary x K (i + 1)) / 2)
    ∧ List.Chain' (· ≤ ·) (makeSingleMixture x K).1
    ∧ (∀ i, i < K → (makeSingleMixture x K).2.getD i 0
        = max ((specBoundary x K (i + 1) - specBoundary x K i) ^ 2)
            (((specBoundary x K K - specBoundary x K 0) / 100) ^ 2)) := by
  have hx : x ≠ [] := by
    intro h
    rw [h] at hn
    simp at hn
    omega
  obtain ⟨h1, h2, h3, h4⟩ := makeSingleMixture_parts x K hK
  exact ⟨⟨h1, h2⟩, h3, makeSingleMixture_chain x K hK hx, h4⟩

/-- C7, witness: the partitioner on the rational sample `3, 0, 2, 1, 4` with
`K = 2`, evaluated concretely. -/
theorem C7_witness :
    (1 ≤ 2 ∧ 2 ≤ ([3, 0, 2, 1, 4] : List ℚ).length
      ∧ specBoundary ([3, 0, 2, 1, 4] : List ℚ) 2 0
          < specBoundary ([3, 0, 2, 1, 4] : List ℚ) 2 2)
    ∧ List.Chain' (· ≤ ·) (makeSingleMixture ([3, 0, 2, 1, 4] : List ℚ) 2).1 := by
  have hsort : List.insertionSort (· ≤ ·) ([3, 0, 2, 1, 4] : List ℚ)
      = [0, 1, 2, 3, 4] := by decide
  have hb0 : specBoundary ([3, 0, 2, 1, 4] : List ℚ) 2 0 = 0 := by
    rw [specBoundary, percentile, hsort, percentileLevel]
    norm_num [interpAt]
  have hb2 : specBoundary ([3, 0, 2, 1, 4] : List ℚ) 2 2 = 4 := by
    rw [specBoundary, percentile, hsort, percentileLevel]
    norm_num [interpAt]
    rfl
  have hrange : specBoundary ([3, 0, 2, 1, 4] : List ℚ) 2 0
      < specBoundary ([3, 0, 2, 1, 4] : List ℚ) 2 2 := by
    rw [hb0, hb2]
    norm_num
  refine ⟨⟨by norm_num, by norm_num, hrange⟩, ?_⟩
  exact (C7_theorem ([3, 0, 2, 1, 4] : List ℚ) 2 (by norm_num) (by norm_num)
    hrange).2.2.1

/-- C9 (confirmed): a feature sample with no finite entries or zero standard
deviation yields an absent mixture rather than an error, an absent mixture
contributes exactly zero to the log-score matrix, and dropping an absent
mixture together with its observation column leaves a row's aggregated
log-score unchanged — so one degenerate feature never aborts fit or
prediction. -/
theorem C9_theorem :
    (∀ (vb : List ℝ → Mixture → Mixture) (n1 n2 n3 : ℕ) (col0 : List FVal),
      (finiteVals col0 = [] ∨ sampleStd (finiteVals col0) = 0) →
        makeMixtureForColumn vb n1 n2 n3 col0 = none)
    ∧ (∀ x : FVal, featureContribution none x = 0)
    ∧ (∀ (fds : List (Option Mixture)) (row : List FVal) (lp : ℝ) (x : FVal),
      evalFeatureDistRow (none :: fds) (x :: row) lp
        = evalFeatureDistRow fds row lp) := by
  refine ⟨?_, featureContribution_absent, ?_⟩
  · intro vb n1 n2 n3 col0 h
    exact makeMixtureForColumn_degenerate vb n1 n2 n3 col0 h
  · intro fds row lp x
    simp [evalFeatureDistRow, featureContribution_absent]

/-- C9, witness: the constant sample `7, 7` (zero variance) yields an absent
mixture. -/
theorem C9_witness :
    (finiteVals [some 7, some 7] = []
      ∨ sampleStd (finiteVals [some 7, some 7]) = 0)
    ∧ makeMixtureForColumn vbId 5 10 1000 [some 7, some 7] = none := by
  have h : sampleStd (finiteVals [some 7, some 7]) = 0 := by
    have hf : finiteVals [some 7, some 7] = [7, 7] := by simp [finiteVals]
    rw [hf, sampleStd_pair]
    simp
  exact ⟨Or.inr h, C9_theorem.1 vbId 5 10 1000 _ (Or.inr h)⟩

/-- C10 (confirmed): `predict`, `predict_proba` and `predict_log_proba` never
mutate the state produced by `fit`: the configuration, the transform flags and
every fitted attribute (stored training data, class set, class profiles with
their mixtures, KL structure) are unchanged by any of the three calls; only
the prediction attributes are written. -/
theorem C10_theorem (m : NBModel) (X : List (List FVal)) :
    ((predict m X).1.cfg = m.cfg ∧ (predict m X).1.islogvar = m.islogvar
      ∧ (predict m X).1.fitted = m.fitted)
    ∧ ((predictProba m X).1.cfg = m.cfg
      ∧ (predictProba m X).1.islogvar = m.islogvar
      ∧ (predictProba m X).1.fitted = m.fitted)
    ∧ ((predictLogProba m X).1.cfg = m.cfg
      ∧ (predictLogProba m X).1.islogvar = m.islogvar
      ∧ (predictLogProba m X).1.fitted = m.fitted) := by
  have h : (predictUnderscoreRun m X).cfg = m.cfg
      ∧ (predictUnderscoreRun m X).islogvar = m.islogvar
      ∧ (predictUnderscoreRun m X).fitted = m.fitted := by
    cases hfit : m.fitted <;> cases hlog : m.islogvar <;>
      simp [predictUnderscoreRun, predictUnderscore, hfit, hlog]
  exact ⟨⟨h.1, h.2.1, h.2.2⟩, ⟨h.1, h.2.1, h.2.2⟩, ⟨h.1, h.2.1, h.2.2⟩⟩

/-- C1, counterexample to the claim as stated: on a fitted model with class
labels `1` and `2`, `predict` returns `[0]` — the positional argmax index —
and `0` is not an element of the class label set, so the returned value is
not the class label with maximal posterior log-probability. -/
theorem C1_counterexample :
    (predict M1 [[some 5]]).2 = some [0] ∧ (0 : ℤ) ∉ F1.classes_ := by
  refine ⟨predict_M1_nearest, ?_⟩
  decide

/-- C1 (corrected): for every fitted model and prediction input, `predict`
returns per row the positional index, into the list of populated classes, of
a class whose posterior log-probability is maximal for that row (the first
such index on ties) — an index, not the class label itself. -/
theorem C1_theorem (m : NBModel) (X : List (List FVal)) (f : Fitted)
    (flags : List Bool) (hf : m.fitted = some f) (hfl : m.islogvar = some flags)
    (r j : ℕ) (hr : r < X.length) (hj : j < f.class_properties_.length) :
    ((predictUnderscoreRun m X).nearest_.getD []).getD r 0
        < f.class_properties_.length
    ∧ (predict m X).2 = (predictUnderscoreRun m X).nearest_
    ∧ (((predictUnderscoreRun m X).logproba_.getD []).getD r []).getD j 0
        ≤ (((predictUnderscoreRun m X).logproba_.getD []).getD r []).getD
            (((predictUnderscoreRun m X).nearest_.getD []).getD r 0) 0 := by
  have hlen : ((predictScores f flags X).getD r []).length
      = f.class_properties_.length := by
    rw [predictScores_getD f flags X r hr, predictScoresRow_length]
  have hne : (predictScores f flags X).getD r [] ≠ [] := by
    intro h
    rw [h] at hlen
    simp at hlen
    omega
  refine ⟨?_, rfl, ?_⟩
  · rw [nearest_getD m X f flags hf hfl r hr, ← hlen]
    exact argmaxIdx_lt _ hne
  · rw [logproba_getD m X f flags hf hfl r hr,
      nearest_getD m X f flags hf hfl r hr]
    have hjl : j < ((predictScores f flags X).getD r []).length := by
      rw [hlen]
      exact hj
    have hnl : argmaxIdx ((predictScores f flags X).getD r [])
        < ((predictScores f flags X).getD r []).length := argmaxIdx_lt _ hne
    rw [getD_map_of_lt _ _ _ hjl 0 0, getD_map_of_lt _ _ _ hnl 0 0]
    exact sub_le_sub_right (argmaxIdx_ge _ j hjl) _

/-- C1, witness: the amended claim applied to the fitted model `M1` at row 0
and class position 1. -/
theorem C1_witness :
    M1.fitted = some F1 ∧ M1.islogvar = some [false]
    ∧ 0 < ([[some 5]] : List (List FVal)).length
    ∧ 1 < F1.class_properties_.length
    ∧ ((predictUnderscoreRun M1 [[some 5]]).nearest_.getD []).getD 0 0
        < F1.class_properties_.length := by
  have hj : 1 < F1.class_properties_.length := by decide
  exact ⟨rfl, rfl, by norm_num, hj,
    (C1_theorem M1 [[some 5]] F1 [false] rfl rfl 0 1 (by norm_num) hj).1⟩

/-- C8 (confirmed): for every fitted model with at least one populated class
and every prediction input of finite values, each row of the matrix
`predict_proba` returns sums to 1 within `1e-6` (it sums to exactly 1 in real
arithmetic, since the rows are exponentials of log-sum-exp-normalized
log-scores). -/
theorem C8_theorem (m : NBModel) (X : List (List FVal)) (f : Fitted)
    (flags : List Bool) (hf : m.fitted = some f) (hfl : m.islogvar = some flags)
    (hcp : f.class_properties_ ≠ [])
    (hfin : ∀ row ∈ X, ∀ v ∈ row, Option.isSome v = true)
    (r : ℕ) (hr : r < X.length) :
    |((((predictProba m X).2.getD []).getD r []).sum) - 1| ≤ 1 / 1000000 := by
  have hlen : ((predictScores f flags X).getD r []).length
      = f.class_properties_.length := by
    rw [predictScores_getD f flags X r hr, predictScoresRow_length]
  have hne : (predictScores f flags X).getD r [] ≠ [] := by
    intro h
    rw [h] at hlen
    have := List.length_pos.mpr hcp
    simp at hlen
    omega
  have hPP : ((predictProba m X).2.getD []).getD r []
      = (((predictUnderscoreRun m X).logproba_.getD []).getD r []).map Real.exp := by
    simp only [predictProba]
    rw [predictUnderscoreRun_eq m X f flags hf hfl]
    simp only [Option.map_some', Option.getD_some]
    have hrz : r < (List.zipWith (fun srow c => srow.map (fun s => s - c))
        (predictScores f flags X)
        ((predictScores f flags X).map logsumexp)).length := by
      rw [logproba_zip_length]
      exact hr
    exact getD_map_of_lt (List.map Real.exp) _ r hrz [] []
  rw [hPP, logproba_getD m X f flags hf hfl r hr,
    normalized_exp_sum _ hne]
  norm_num

/-- C8, witness: the fitted model `M1` on the finite input row `[0]`. -/
theorem C8_witness :
    M1.fitted = some F1 ∧ F1.class_properties_ ≠ []
    ∧ |((((predictProba M1 [[some 0]]).2.getD []).getD 0 []).sum) - 1|
        ≤ 1 / 1000000 := by
  have hcp : F1.class_properties_ ≠ [] := by simp [F1]
  have hfin : ∀ row ∈ ([[some 0]] : List (List FVal)), ∀ v ∈ row,
      Option.isSome v = true := by
    intro row hrow v hv
    simp only [List.mem_cons, List.not_mem_nil, or_false] at hrow
    subst hrow
    simp only [List.mem_cons, List.not_mem_nil, or_false] at hv
    subst hv
    rfl
  exact ⟨rfl, hcp,
    C8_theorem M1 [[some 0]] F1 [false] rfl rfl hcp hfin 0 (by norm_num)⟩

end
